import Mathlib

/-!
Verification of the Tic-Tac-Toe core (board state machine, AI strategies,
game controller) against its natural-language specification.

The Python source is shallowly embedded: the numpy 3x3 integer grid becomes a
function `Fin 3 → Fin 3 → Nat` (0 = empty, 1/2 = player marks), the winning
patterns become the same 0/1-valued grids the source builds, mutation becomes
explicit state passing, `random.choice` becomes an abstract oracle
`List α → Option α` (returning `none` models the exception raised on an empty
list), and Python exceptions become `Option`/`none` results.
-/

namespace TicTacToe

/-- The 3x3 numpy grid of `Board.grid`: 0 = empty, 1 = player 1, 2 = player 2. -/
abbrev Grid := Fin 3 → Fin 3 → Nat

/-- A winning pattern as built by `Board._generate_winning_patterns`: a 3x3
0/1 matrix marking the pattern's three coordinates. -/
abbrev Pattern := Fin 3 → Fin 3 → Nat

/-- Build a grid from its nine entries in row-major order. -/
def mkGrid (a00 a01 a02 a10 a11 a12 a20 a21 a22 : Nat) : Grid := fun i j =>
  match i.val, j.val with
  | 0, 0 => a00 | 0, 1 => a01 | 0, 2 => a02
  | 1, 0 => a10 | 1, 1 => a11 | 1, 2 => a12
  | 2, 0 => a20 | 2, 1 => a21 | _, _ => a22

/-- The all-empty grid (`Board.__init__` / `Board.reset`). -/
def emptyGrid : Grid := fun _ _ => 0

/-- Row pattern: `pattern[row, :] = 1`. -/
def rowPattern (r : Fin 3) : Pattern := fun i _ => if i = r then 1 else 0

/-- Column pattern: `pattern[:, col] = 1`. -/
def colPattern (c : Fin 3) : Pattern := fun _ j => if j = c then 1 else 0

/-- Main diagonal pattern: `np.eye(3)`. -/
def diagPattern : Pattern := fun i j => if i.val = j.val then 1 else 0

/-- Anti-diagonal pattern: `np.fliplr(np.eye(3))`, i.e. ones where `i + j = 2`. -/
def antiDiagPattern : Pattern := fun i j => if i.val + j.val = 2 then 1 else 0

/-- Embeds `Board._generate_winning_patterns`: 3 rows, 3 columns, main diagonal,
anti-diagonal, in exactly this order. -/
def winning_patterns : List Pattern :=
  [rowPattern 0, rowPattern 1, rowPattern 2,
   colPattern 0, colPattern 1, colPattern 2,
   diagPattern, antiDiagPattern]

/-- All nine cells in row-major order (the order of every `for i ... for j ...`
scan in the source, and of `np.where`). -/
def allCells : List (Fin 3 × Fin 3) :=
  [(0, 0), (0, 1), (0, 2), (1, 0), (1, 1), (1, 2), (2, 0), (2, 1), (2, 2)]

/-- The coordinates of a pattern's ones, in row-major scan order (the source
repeatedly scans `pattern[i, j] == 1` with nested `for` loops). -/
def patternCells (p : Pattern) : List (Fin 3 × Fin 3) :=
  allCells.filter (fun c => p c.1 c.2 == 1)

/-- The range check `0 <= row < self.SIZE and 0 <= col < self.SIZE` of
`Board.is_valid_move`, on Python integers. -/
def inRange (row col : Int) : Prop :=
  0 ≤ row ∧ row < 3 ∧ 0 ≤ col ∧ col < 3

instance (row col : Int) : Decidable (inRange row col) := by
  unfold inRange; infer_instance

/-- In-range Python coordinates as grid indices. -/
def toFin (row col : Int) (h : inRange row col) : Fin 3 × Fin 3 :=
  (⟨row.toNat, by unfold inRange at h; omega⟩, ⟨col.toNat, by unfold inRange at h; omega⟩)

/-- Embeds `Board.is_valid_move`: in range and the cell is empty; out-of-range
coordinates return false rather than raising. -/
def is_valid_move (g : Grid) (row col : Int) : Bool :=
  if h : inRange row col then g (toFin row col h).1 (toFin row col h).2 == 0
  else false

/-- Write one cell of the grid (`self.grid[row, col] = player`). -/
def setCell (g : Grid) (c : Fin 3 × Fin 3) (v : Nat) : Grid := fun i j =>
  if i = c.1 ∧ j = c.2 then v else g i j

/-- Embeds `Board.make_move`: validity check (range, then emptiness) and, on success,
the single-cell write; on failure the grid is unchanged. -/
def make_move (g : Grid) (row col : Int) (player : Nat) : Bool × Grid :=
  if h : inRange row col then
    if g (toFin row col h).1 (toFin row col h).2 = 0 then
      (true, setCell g (toFin row col h) player)
    else (false, g)
  else (false, g)

/-- Embeds `Board.get_empty_cells`: the empty coordinates in row-major order. -/
def get_empty_cells (g : Grid) : List (Fin 3 × Fin 3) :=
  allCells.filter (fun c => g c.1 c.2 == 0)

/-- Embeds `Board.check_winner`: `np.all((pattern == 1) == (self.grid == player))`
for some pattern — elementwise equality of the two boolean masks over all
nine cells, i.e. the player's mark set must coincide exactly with the
pattern. -/
def check_winner (g : Grid) (player : Nat) : Bool :=
  winning_patterns.any (fun p =>
    allCells.all (fun c => (p c.1 c.2 == 1) == (g c.1 c.2 == player)))

/-- Embeds `Board.is_full`: no empty cells remain. -/
def is_full (g : Grid) : Bool :=
  (get_empty_cells g).length == 0

/-- Embeds `Board.is_game_over`: player-1 win, then player-2 win, then fullness. -/
def is_game_over (g : Grid) : Bool × Option Nat :=
  if check_winner g 1 then (true, some 1)
  else if check_winner g 2 then (true, some 2)
  else if is_full g then (true, none)
  else (false, none)

/-- A board on which player 1's marks strictly contain row 0: the three row-0
cells plus one extra mark at (1,1). -/
def gOverline : Grid := mkGrid 1 1 1 0 1 0 0 0 0

/-- A full board on which player 1's marks (five cells) contain all of row 0. -/
def gFullRow : Grid := mkGrid 1 1 1 2 1 2 1 2 2

/-- C1: refuted as stated, against the code. Every coordinate of winning
pattern row 0 holds player 1's mark on `gOverline`, yet `check_winner` returns
false, because the source compares the boolean masks `(pattern == 1)` and
`(grid == player)` for exact equality instead of testing containment: the
extra mark at (1,1) breaks the mask equality. The spec sentence ("true iff,
for some winning pattern, every one of its 3 coordinates holds the player's
mark") is the evident intent — a player who completes a line after having
played elsewhere has won — so the code is the slip. -/
theorem check_winner_exact_match_bug :
    rowPattern 0 ∈ winning_patterns ∧
    (∀ c ∈ patternCells (rowPattern 0), gOverline c.1 c.2 = 1) ∧
    check_winner gOverline 1 = false := by decide

/-- C2: refuted as stated, against the code. `gFullRow` is a full board on
which player 1's marks cover every coordinate of winning pattern row 0, yet
`is_game_over` reports a draw `(true, none)`: the exact-mask-equality bug in
`check_winner` makes both win checks fail (each player holds more than three
cells), so the fullness branch fires. -/
theorem is_game_over_draw_bug :
    is_full gFullRow = true ∧
    (∀ c ∈ patternCells (rowPattern 0), gFullRow c.1 c.2 = 1) ∧
    is_game_over gFullRow = (true, none) := by decide

/-! ## Player (`player.py`) -/

/-- Embeds `PlayerType`. -/
inductive PlayerType where
  | human
  | ai_random
  | ai_strategy
deriving DecidableEq

/-- The immutable record built by `Player.__init__`. -/
structure Player where
  number : Nat
  player_type : PlayerType
  symbol : Char
deriving DecidableEq

/-- Embeds `Player.__init__`: rejects numbers outside {1, 2} (`none` models the
`ValueError`), derives the symbol from the number. -/
def playerInit (number : Nat) (player_type : PlayerType) : Option Player :=
  if number = 1 ∨ number = 2 then
    some ⟨number, player_type, if number = 1 then 'X' else 'O'⟩
  else none

/-! ## AI strategies (`ai.py`) -/

/-- Embeds `BaseAI.__init__`: `opponent_number = 2 if player_number == 1 else 1`. -/
def opponent_of (player : Nat) : Nat := if player = 1 then 2 else 1

/-- The mutable fields of a `StrategyAI` instance. `strategy_index` is kept
for faithfulness although the source only ever writes it. -/
structure AIState where
  current_strategy : Option Pattern
  strategy_index : Nat

/-- Embeds `StrategyAI.__init__` / `StrategyAI.reset_strategy`. -/
def reset_strategy (_s : AIState) : AIState := ⟨none, 0⟩

/-- The body of the pattern loop in `StrategyAI._find_winning_move`: collect
the pattern's cells holding `player`'s mark and its empty cells (row-major
scan); if exactly 2 match and 1 is empty, that empty cell completes the
pattern. -/
def fwmCandidate (g : Grid) (player : Nat) (p : Pattern) : Option (Fin 3 × Fin 3) :=
  let matching_cells := (patternCells p).filter (fun c => g c.1 c.2 == player)
  let empty_cells := (patternCells p).filter (fun c => g c.1 c.2 == 0)
  if matching_cells.length = 2 ∧ empty_cells.length = 1 then empty_cells.head?
  else none

/-- Embeds `StrategyAI._find_winning_move`: first pattern (in `winning_patterns`
order) with exactly two of `player`'s marks and one empty cell; returns that
empty cell. -/
def find_winning_move (g : Grid) (player : Nat) : Option (Fin 3 × Fin 3) :=
  winning_patterns.findSome? (fwmCandidate g player)

/-- The blocked-scan shared by `StrategyAI._get_available_patterns` and
`StrategyAI._is_pattern_valid`: some pattern cell holds the opponent's mark. -/
def pattern_blocked (g : Grid) (p : Pattern) (opponent : Nat) : Bool :=
  (patternCells p).any (fun c => g c.1 c.2 == opponent)

/-- Embeds `StrategyAI._get_available_patterns`: the winning patterns not blocked by
the opponent. -/
def get_available_patterns (g : Grid) (opponent : Nat) : List Pattern :=
  winning_patterns.filter (fun p => !pattern_blocked g p opponent)

/-- Embeds `StrategyAI._is_pattern_valid`: still achievable, i.e. not blocked. -/
def is_pattern_valid (g : Grid) (p : Pattern) (opponent : Nat) : Bool :=
  !pattern_blocked g p opponent

/-- The score loop of `StrategyAI._choose_best_pattern`: how many of the
pattern's cells hold our own mark. -/
def patternScore (g : Grid) (player : Nat) (p : Pattern) : Nat :=
  ((patternCells p).filter (fun c => g c.1 c.2 == player)).length

/-- Stable insertion, descending by score: models one step of Python's stable
`list.sort(reverse=True, key=lambda x: x[0])`. An element is inserted in
front of the first entry whose key it meets or exceeds, so among equal keys
the original (earlier) element stays first. -/
def insertDesc (x : Nat × Pattern) : List (Nat × Pattern) → List (Nat × Pattern)
  | [] => [x]
  | y :: ys => if y.1 ≤ x.1 then x :: y :: ys else y :: insertDesc x ys

/-- Stable descending sort by score — the specification of
`pattern_scores.sort(reverse=True, key=lambda x: x[0])`. -/
def sortDesc (l : List (Nat × Pattern)) : List (Nat × Pattern) :=
  l.foldr insertDesc []

/-- Embeds `StrategyAI._choose_best_pattern`: score every pattern by own marks, sort
descending (stably), take the head; if the best score is 0, pick randomly
among the given patterns (`rcPat` models `random.choice`). -/
def choose_best_pattern (rcPat : List Pattern → Option Pattern) (g : Grid)
    (player : Nat) (patterns : List Pattern) : Option Pattern :=
  match patterns with
  | [] => none
  | _ :: _ =>
    let pattern_scores := patterns.map (fun p => (patternScore g player p, p))
    match sortDesc pattern_scores with
    | [] => none
    | best :: _ => if best.1 = 0 then rcPat patterns else some best.2

/-- Embeds `StrategyAI._get_move_from_pattern`: first pattern cell (in the pattern's
row-major cell order) passing `board.is_valid_move`. -/
def get_move_from_pattern (g : Grid) (p : Pattern) : Option (Fin 3 × Fin 3) :=
  (patternCells p).find? (fun pos => is_valid_move g (pos.1.val : Int) (pos.2.val : Int))

/-- Embeds `StrategyAI._get_strategic_move`: guard on available patterns, (re)choose
the committed pattern when absent or invalidated, then play its first empty
cell. In the branch where the freshly chosen commitment is `none` the Python
code would fail on `_is_pattern_valid(board, None)`; that branch is
unreachable when `rcPat` returns an element of a nonempty list, and is
modelled as yielding no move. -/
def get_strategic_move (rcPat : List Pattern → Option Pattern) (player opponent : Nat)
    (g : Grid) (s : AIState) : Option (Fin 3 × Fin 3) × AIState :=
  match get_available_patterns g opponent with
  | [] => (none, s)
  | q :: qs =>
    let available_patterns := q :: qs
    let s1 : AIState :=
      match s.current_strategy with
      | none => ⟨choose_best_pattern rcPat g player available_patterns, 0⟩
      | some _ => s
    let s2 : AIState :=
      match s1.current_strategy with
      | none => s1
      | some p =>
        if is_pattern_valid g p opponent then s1
        else ⟨choose_best_pattern rcPat g player available_patterns, 0⟩
    match s2.current_strategy with
    | some p =>
      match get_move_from_pattern g p with
      | some mv => (some mv, s2)
      | none => (none, s2)
    | none => (none, s2)

/-- Embeds `StrategyAI.get_move`: block the opponent, else win, else follow the
committed pattern, else play a random empty cell. `rcPat`/`rcCell` are the
`random.choice` oracles for patterns and cells. -/
def strategy_get_move (rcPat : List Pattern → Option Pattern)
    (rcCell : List (Fin 3 × Fin 3) → Option (Fin 3 × Fin 3))
    (player : Nat) (g : Grid) (s : AIState) : Option (Fin 3 × Fin 3) × AIState :=
  let opponent := opponent_of player
  match find_winning_move g opponent with
  | some blocking_move => (some blocking_move, ⟨none, s.strategy_index⟩)
  | none =>
    match find_winning_move g player with
    | some winning_move => (some winning_move, ⟨none, s.strategy_index⟩)
    | none =>
      match get_strategic_move rcPat player opponent g s with
      | (some strategic_move, s2) => (some strategic_move, s2)
      | (none, s2) => (rcCell (get_empty_cells g), s2)

/-- Embeds `RandomAI.get_move`: `none` on a full board models the raised
`ValueError`; otherwise `random.choice` over the empty cells. -/
def random_get_move (rcCell : List (Fin 3 × Fin 3) → Option (Fin 3 × Fin 3))
    (g : Grid) : Option (Fin 3 × Fin 3) :=
  match get_empty_cells g with
  | [] => none
  | c :: cs => rcCell (c :: cs)

/-! ## Game controller (`game.py`) -/

/-- Embeds `GameResult`. -/
structure GameResult where
  winner : Option Nat
  is_draw : Bool
deriving DecidableEq

/-- Embeds `Game.check_game_over`'s construction of a `GameResult` from the winner
reported by `Board.is_game_over`: `None` becomes a draw. -/
def resultOf (winner : Option Nat) : GameResult :=
  match winner with
  | none => ⟨none, true⟩
  | some w => ⟨some w, false⟩

/-- Embeds `GameStats`. -/
structure GameStats where
  player1_wins : Nat
  player2_wins : Nat
  draws : Nat
  total_games : Nat
deriving DecidableEq

/-- Embeds `GameStats.__init__` / `GameStats.reset`. -/
def stats_reset (_s : GameStats) : GameStats := ⟨0, 0, 0, 0⟩

/-- Embeds `GameStats.record_result`: bump the total, then exactly one bucket
(draw first, then winner 1, then winner 2; anything else only bumps the
total). -/
def record_result (s : GameStats) (r : GameResult) : GameStats :=
  let s := { s with total_games := s.total_games + 1 }
  if r.is_draw then { s with draws := s.draws + 1 }
  else if r.winner = some 1 then { s with player1_wins := s.player1_wins + 1 }
  else if r.winner = some 2 then { s with player2_wins := s.player2_wins + 1 }
  else s

/-- Embeds `GameStats.get_win_rate`, with Python floats modelled as rationals: the
division by `total_games` is guarded by the zero check. -/
def get_win_rate (s : GameStats) (player : Nat) : ℚ :=
  if s.total_games = 0 then 0
  else
    let wins : ℚ := if player = 1 then (s.player1_wins : ℚ) else (s.player2_wins : ℚ)
    wins / (s.total_games : ℚ) * 100

/-- Embeds `Game.switch_player` on player numbers: the controller holds exactly the
two players, so swapping the instance swaps the number. -/
def switch_player (cur : Nat) : Nat := if cur = 1 then 2 else 1

/-- The two AI player types accepted by `Game.__init__` for automated play. -/
inductive AIKind where
  | random
  | strategy

/-- Dispatch of `Game.get_ai_move` to the active player's AI instance. -/
def ai_get_move (k : AIKind) (rcPat : List Pattern → Option Pattern)
    (rcCell : List (Fin 3 × Fin 3) → Option (Fin 3 × Fin 3))
    (player : Nat) (g : Grid) (s : AIState) : Option (Fin 3 × Fin 3) × AIState :=
  match k with
  | .random => (random_get_move rcCell g, s)
  | .strategy => strategy_get_move rcPat rcCell player g s

/-- The `while True` loop of `Game.play_single_game`, with explicit fuel
(`none` models a move-request failure or fuel exhaustion): request the active
player's move, commit it with `Board.make_move` (whose success flag the
source discards), stop with a result when `is_game_over` fires, otherwise
switch player and continue. -/
def playLoop (mv1 mv2 : Grid → AIState → Option (Fin 3 × Fin 3) × AIState) :
    Nat → Grid → Nat → AIState → AIState → Option GameResult
  | 0, _, _, _, _ => none
  | fuel + 1, g, cur, s1, s2 =>
    match (if cur = 1 then mv1 g s1 else mv2 g s2) with
    | (none, _) => none
    | (some c, st) =>
      let s1n := if cur = 1 then st else s1
      let s2n := if cur = 1 then s2 else st
      let g2 := (make_move g (c.1.val : Int) (c.2.val : Int) cur).2
      match is_game_over g2 with
      | (true, w) => some (resultOf w)
      | (false, _) => playLoop mv1 mv2 fuel g2 (switch_player cur) s1n s2n

/-- Embeds `Game.play_single_game`: reset the board and both AI session states, set
the starting player (`player1` unless `first_player == 2`-style dispatch:
the source picks `player1` exactly when `first_player == 1`), and loop. -/
def play_single_game (mv1 mv2 : Grid → AIState → Option (Fin 3 × Fin 3) × AIState)
    (fuel : Nat) (first_player : Nat) : Option GameResult :=
  playLoop mv1 mv2 fuel emptyGrid (if first_player = 1 then 1 else 2)
    (reset_strategy ⟨none, 0⟩) (reset_strategy ⟨none, 0⟩)

/-- The accumulation loop of `Game.simulate_games`. -/
def simulateLoop (mv1 mv2 : Grid → AIState → Option (Fin 3 × Fin 3) × AIState)
    (fuel first_player : Nat) : Nat → GameStats → Option GameStats
  | 0, st => some st
  | n + 1, st =>
    match play_single_game mv1 mv2 fuel first_player with
    | none => none
    | some r => simulateLoop mv1 mv2 fuel first_player n (record_result st r)

/-- Embeds `Game.simulate_games`: reset the aggregate statistics, then play and
record `n` games. -/
def simulate_games (mv1 mv2 : Grid → AIState → Option (Fin 3 × Fin 3) × AIState)
    (fuel : Nat) (n : Nat) (first_player : Nat) (stats : GameStats) : Option GameStats :=
  simulateLoop mv1 mv2 fuel first_player n (stats_reset stats)

/-! ## Helper lemmas -/

/-- Auxiliary: `List.head?` is a valid instantiation of the `random.choice` oracle: on a
nonempty list it returns one of its elements. -/
theorem head?_oracle {α : Type} : ∀ l : List α, l ≠ [] → ∃ x ∈ l, l.head? = some x := by
  intro l h
  cases l with
  | nil => exact absurd rfl h
  | cons a t => exact ⟨a, by simp, rfl⟩

/-- Membership in `get_empty_cells` means the cell is empty. -/
theorem mem_empty_cells {g : Grid} {c : Fin 3 × Fin 3}
    (h : c ∈ get_empty_cells g) : g c.1 c.2 = 0 := by
  have := (List.mem_filter.mp h).2
  simpa using this

/-! ## C6: invalid moves are rejected without mutation -/

/-- C6: out-of-range coordinates make `is_valid_move` false (no exception is
modelled because the source checks the range before indexing), an occupied
target makes it false, and whenever the move is invalid `make_move` reports
failure and returns the grid unchanged. -/
theorem make_move_invalid_noop (g : Grid) (row col : Int) (player : Nat) :
    (¬ inRange row col → is_valid_move g row col = false) ∧
    (∀ h : inRange row col, g (toFin row col h).1 (toFin row col h).2 ≠ 0 →
      is_valid_move g row col = false) ∧
    (is_valid_move g row col = false → make_move g row col player = (false, g)) := by
  refine ⟨?_, ?_, ?_⟩
  · intro h
    unfold is_valid_move
    rw [dif_neg h]
  · intro h hocc
    unfold is_valid_move
    rw [dif_pos h]
    exact beq_eq_false_iff_ne.mpr hocc
  · intro hval
    unfold make_move
    split
    · next h =>
      unfold is_valid_move at hval
      rw [dif_pos h] at hval
      rw [beq_eq_false_iff_ne] at hval
      rw [if_neg hval]
    · rfl

/-- Witness for C6 at concrete inputs: the out-of-range move (3,0) on the
empty board and the occupied cell (0,0) of `gOverline`. -/
theorem make_move_invalid_noop_witness :
    is_valid_move emptyGrid 3 0 = false ∧ make_move gOverline 0 0 2 = (false, gOverline) :=
  ⟨(make_move_invalid_noop emptyGrid 3 0 1).1 (by decide),
   (make_move_invalid_noop gOverline 0 0 2).2.2 (by decide)⟩

/-! ## C7: RandomAI plays an empty cell, and fails hard on a full board -/

/-- C7: with any `random.choice` oracle that returns an element of a nonempty
list, `RandomAI.get_move` returns `none` (the raised `ValueError`) exactly on
a full board, and otherwise a currently empty cell. -/
theorem random_ai_spec (rcCell : List (Fin 3 × Fin 3) → Option (Fin 3 × Fin 3))
    (hrc : ∀ l : List (Fin 3 × Fin 3), l ≠ [] → ∃ x ∈ l, rcCell l = some x)
    (g : Grid) :
    (get_empty_cells g = [] → random_get_move rcCell g = none) ∧
    (get_empty_cells g ≠ [] → ∃ c, random_get_move rcCell g = some c ∧
      c ∈ get_empty_cells g ∧ g c.1 c.2 = 0) := by
  constructor
  · intro h
    unfold random_get_move
    rw [h]
  · intro h
    unfold random_get_move
    rcases hl : get_empty_cells g with _ | ⟨c, cs⟩
    · exact absurd hl h
    · obtain ⟨x, hx, hsome⟩ := hrc (c :: cs) (by simp)
      have hxmem : x ∈ get_empty_cells g := by rw [hl]; exact hx
      exact ⟨x, hsome, hx, mem_empty_cells hxmem⟩

/-- Witness for C7: on the full board `gFullRow` the random AI signals the
error. -/
theorem random_ai_spec_witness : random_get_move List.head? gFullRow = none :=
  (random_ai_spec List.head? head?_oracle gFullRow).1 (by decide)

/-! ## C8: win rate guarded against division by zero -/

/-- C8: `get_win_rate` returns 0 when no games were recorded, and otherwise
equals `wins / total_games * 100` for the selected player's win counter
(stated multiplied out, so the division really carries the content). -/
theorem get_win_rate_guarded (s : GameStats) (player : Nat) :
    (s.total_games = 0 → get_win_rate s player = 0) ∧
    (s.total_games ≠ 0 → get_win_rate s player * (s.total_games : ℚ) =
      (if player = 1 then (s.player1_wins : ℚ) else (s.player2_wins : ℚ)) * 100) := by
  constructor
  · intro h
    simp [get_win_rate, h]
  · intro h
    have ht : (s.total_games : ℚ) ≠ 0 := by exact_mod_cast h
    simp only [get_win_rate, if_neg h]
    field_simp

/-- Witness for C8: zero recorded games yield rate 0 even with nonzero win
counters. -/
theorem get_win_rate_guarded_witness : get_win_rate ⟨3, 4, 5, 0⟩ 1 = 0 :=
  (get_win_rate_guarded ⟨3, 4, 5, 0⟩ 1).1 rfl

/-! ## C9: player construction -/

/-- C9: `Player.__init__` rejects exactly the numbers outside {1, 2}, and
assigns symbol 'X' to player 1 and 'O' to player 2. The embedding is purely
functional and no operation in this file produces a modified `Player`, which
is the image of the source never reassigning the constructed fields. -/
theorem player_init_validation (n : Nat) (t : PlayerType) :
    (playerInit n t = none ↔ ¬(n = 1 ∨ n = 2)) ∧
    playerInit 1 t = some ⟨1, t, 'X'⟩ ∧
    playerInit 2 t = some ⟨2, t, 'O'⟩ := by
  refine ⟨⟨?_, ?_⟩, by simp [playerInit], by simp [playerInit]⟩
  · intro h hc
    unfold playerInit at h
    rw [if_pos hc] at h
    cases h
  · intro h
    unfold playerInit
    exact if_neg h

/-- Witness for C9: number 3 is rejected. -/
theorem player_init_validation_witness : playerInit 3 PlayerType.human = none :=
  (player_init_validation 3 PlayerType.human).1.mpr (by decide)

/-- Auxiliary: `List.findSome?` returns the value of the unique element on which the
function fires. -/
theorem findSome?_eq_of_unique {α β : Type} (f : α → Option β) :
    ∀ (l : List α) (a : α) (b : β), a ∈ l → f a = some b →
      (∀ x ∈ l, x ≠ a → f x = none) → l.findSome? f = some b := by
  intro l
  induction l with
  | nil => intro a b h; exact absurd h (List.not_mem_nil a)
  | cons y ys ih =>
    intro a b hmem hfa hothers
    rw [List.findSome?_cons]
    by_cases hya : y = a
    · subst hya
      rw [hfa]
    · rw [hothers y (List.mem_cons_self y ys) hya]
      have hmem' : a ∈ ys := by
        rcases List.mem_cons.mp hmem with h | h
        · exact absurd h.symm hya
        · exact h
      exact ih a b hmem' hfa (fun x hx hxa => hothers x (List.mem_cons_of_mem y hx) hxa)

/-- Auxiliary: `_find_winning_move`'s per-pattern check fires when the pattern holds
exactly two of the player's marks and its empty cells are exactly `[c]`. -/
theorem fwmCandidate_eq_some {g : Grid} {player : Nat} {p : Pattern} {c : Fin 3 × Fin 3}
    (h2 : ((patternCells p).filter (fun x => g x.1 x.2 == player)).length = 2)
    (h1 : (patternCells p).filter (fun x => g x.1 x.2 == 0) = [c]) :
    fwmCandidate g player p = some c := by
  simp only [fwmCandidate]
  rw [h1, if_pos ⟨h2, rfl⟩]
  rfl

/-- Auxiliary: `_find_winning_move`'s per-pattern check yields nothing when the 2-marks /
1-empty condition fails. -/
theorem fwmCandidate_eq_none {g : Grid} {player : Nat} {p : Pattern}
    (h : ¬(((patternCells p).filter (fun x => g x.1 x.2 == player)).length = 2 ∧
          ((patternCells p).filter (fun x => g x.1 x.2 == 0)).length = 1)) :
    fwmCandidate g player p = none := by
  simp only [fwmCandidate]
  rw [if_neg h]

/-! ## C3: the strategic AI blocks a unique immediate opponent threat -/

/-- C3: when exactly one winning pattern holds exactly two opponent marks
with its third cell empty, and no pattern offers the AI an immediate win,
`StrategyAI.get_move` returns that empty blocking cell (and clears the
committed pattern); the block check runs before the win check, so this holds
for every session state. -/
theorem strategy_blocks_unique_threat
    (rcPat : List Pattern → Option Pattern)
    (rcCell : List (Fin 3 × Fin 3) → Option (Fin 3 × Fin 3))
    (player : Nat) (g : Grid) (s : AIState) (P : Pattern) (c : Fin 3 × Fin 3)
    (hmem : P ∈ winning_patterns)
    (hopp2 : ((patternCells P).filter (fun x => g x.1 x.2 == opponent_of player)).length = 2)
    (hempty : (patternCells P).filter (fun x => g x.1 x.2 == 0) = [c])
    (huniq : ∀ Q ∈ winning_patterns, Q ≠ P →
      ¬(((patternCells Q).filter (fun x => g x.1 x.2 == opponent_of player)).length = 2 ∧
        ((patternCells Q).filter (fun x => g x.1 x.2 == 0)).length = 1))
    (_hnowin : ∀ Q ∈ winning_patterns,
      ¬(((patternCells Q).filter (fun x => g x.1 x.2 == player)).length = 2 ∧
        ((patternCells Q).filter (fun x => g x.1 x.2 == 0)).length = 1)) :
    strategy_get_move rcPat rcCell player g s = (some c, ⟨none, s.strategy_index⟩) := by
  have hfwm : find_winning_move g (opponent_of player) = some c := by
    apply findSome?_eq_of_unique _ _ P c hmem
    · exact fwmCandidate_eq_some hopp2 hempty
    · intro Q hQ hQP
      exact fwmCandidate_eq_none (huniq Q hQ hQP)
  simp only [strategy_get_move]
  rw [hfwm]

/-- The board of the spec's own blocking example: the opponent (player 2)
holds (0,0) and (1,1); the main diagonal threat must be blocked at (2,2). -/
def gBlockW : Grid := mkGrid 2 0 0 0 2 0 0 0 0

/-- Witness for C3 on `gBlockW`: the strategic AI (player 1) blocks at (2,2). -/
theorem strategy_blocks_unique_threat_witness :
    strategy_get_move List.head? List.head? 1 gBlockW ⟨none, 0⟩ = (some (2, 2), ⟨none, 0⟩) :=
  strategy_blocks_unique_threat List.head? List.head? 1 gBlockW ⟨none, 0⟩ diagPattern (2, 2)
    (by decide) (by decide) (by decide) (by decide) (by decide)

/-! ## Helper lemmas about the pattern-commitment machinery -/

/-- Cell coordinates of a `Fin 3` pair are in the Python range check. -/
theorem inRange_natCast (c : Fin 3 × Fin 3) :
    inRange (c.1.val : Int) (c.2.val : Int) := by
  have h1 := c.1.isLt
  have h2 := c.2.isLt
  unfold inRange
  omega

/-- Round trip from `Fin` coordinates through Python integers. -/
theorem toFin_natCast (c : Fin 3 × Fin 3) (h : inRange (c.1.val : Int) (c.2.val : Int)) :
    toFin (c.1.val : Int) (c.2.val : Int) h = c := by
  unfold toFin
  apply Prod.ext <;> apply Fin.ext <;> simp

/-- A move extracted from a pattern by `_get_move_from_pattern` targets an
empty cell. -/
theorem get_move_from_pattern_empty {g : Grid} {p : Pattern} {m : Fin 3 × Fin 3}
    (h : get_move_from_pattern g p = some m) : g m.1 m.2 = 0 := by
  have hpred := List.find?_some h
  unfold is_valid_move at hpred
  rw [dif_pos (inRange_natCast m)] at hpred
  rw [toFin_natCast m (inRange_natCast m)] at hpred
  exact beq_iff_eq.mp hpred

/-- Members of `insertDesc x l` are `x` or members of `l`. -/
theorem mem_insertDesc {x y : Nat × Pattern} :
    ∀ {l : List (Nat × Pattern)}, y ∈ insertDesc x l → y = x ∨ y ∈ l := by
  intro l
  induction l with
  | nil =>
    intro h
    simp only [insertDesc, List.mem_singleton] at h
    exact Or.inl h
  | cons z zs ih =>
    intro h
    unfold insertDesc at h
    by_cases hle : z.1 ≤ x.1
    · rw [if_pos hle] at h
      rcases List.mem_cons.mp h with h | h
      · exact Or.inl h
      · exact Or.inr h
    · rw [if_neg hle] at h
      rcases List.mem_cons.mp h with h | h
      · exact Or.inr (List.mem_cons.mpr (Or.inl h))
      · rcases ih h with h | h
        · exact Or.inl h
        · exact Or.inr (List.mem_cons.mpr (Or.inr h))

/-- Members of the stable descending sort are members of the input. -/
theorem mem_sortDesc {y : Nat × Pattern} :
    ∀ {l : List (Nat × Pattern)}, y ∈ sortDesc l → y ∈ l := by
  intro l
  induction l with
  | nil => intro h; exact absurd h (List.not_mem_nil y)
  | cons z zs ih =>
    intro h
    rcases mem_insertDesc h with h | h
    · exact List.mem_cons.mpr (Or.inl h)
    · exact List.mem_cons.mpr (Or.inr (ih h))

/-- Auxiliary: `insertDesc` never produces the empty list. -/
theorem insertDesc_ne_nil (x : Nat × Pattern) :
    ∀ l : List (Nat × Pattern), insertDesc x l ≠ [] := by
  intro l
  cases l with
  | nil => simp [insertDesc]
  | cons z zs =>
    unfold insertDesc
    by_cases hle : z.1 ≤ x.1
    · rw [if_pos hle]; simp
    · rw [if_neg hle]; simp

/-- Sorting a nonempty list yields a nonempty list. -/
theorem sortDesc_ne_nil {l : List (Nat × Pattern)} (h : l ≠ []) : sortDesc l ≠ [] := by
  cases l with
  | nil => exact absurd rfl h
  | cons z zs => exact insertDesc_ne_nil z (sortDesc zs)

/-- Auxiliary: `_choose_best_pattern` on a nonempty list returns one of its patterns,
provided the `random.choice` oracle does. -/
theorem choose_best_pattern_mem (rcPat : List Pattern → Option Pattern)
    (g : Grid) (player : Nat) (patterns : List Pattern)
    (hne : patterns ≠ [])
    (hrc : ∀ l : List Pattern, l ≠ [] → ∃ x ∈ l, rcPat l = some x) :
    ∃ q ∈ patterns, choose_best_pattern rcPat g player patterns = some q := by
  rcases patterns with _ | ⟨p0, ps⟩
  · exact absurd rfl hne
  rcases hs : sortDesc ((p0 :: ps).map (fun p => (patternScore g player p, p)))
    with _ | ⟨best, rest⟩
  · exact absurd hs (sortDesc_ne_nil (by simp))
  have hgoal : choose_best_pattern rcPat g player (p0 :: ps) =
      (if best.1 = 0 then rcPat (p0 :: ps) else some best.2) := by
    simp only [choose_best_pattern]
    rw [hs]
  rw [hgoal]
  by_cases hb : best.1 = 0
  · rw [if_pos hb]
    exact hrc (p0 :: ps) (by simp)
  · rw [if_neg hb]
    have hmem : best ∈ (p0 :: ps).map (fun p => (patternScore g player p, p)) := by
      apply mem_sortDesc
      rw [hs]
      exact List.mem_cons_self _ _
    obtain ⟨q, hq, heq⟩ := List.mem_map.mp hmem
    refine ⟨q, hq, ?_⟩
    rw [← heq]

/-- Patterns reported available are exactly the valid (unblocked) ones. -/
theorem mem_available_valid {g : Grid} {opponent : Nat} {q : Pattern}
    (h : q ∈ get_available_patterns g opponent) :
    is_pattern_valid g q opponent = true := by
  have := (List.mem_filter.mp h).2
  simpa [is_pattern_valid] using this

/-- With no available pattern, `_get_strategic_move` returns no move and
leaves the session state untouched. -/
theorem get_strategic_move_of_no_available {rcPat : List Pattern → Option Pattern}
    {player opponent : Nat} {g : Grid} {s : AIState}
    (h : get_available_patterns g opponent = []) :
    get_strategic_move rcPat player opponent g s = (none, s) := by
  unfold get_strategic_move
  rw [h]

/-- With a committed pattern that is still valid, `_get_strategic_move` keeps
the commitment and plays its first empty cell (if any). -/
theorem get_strategic_move_of_valid {rcPat : List Pattern → Option Pattern}
    {player opponent : Nat} {g : Grid} {s : AIState} {p : Pattern}
    (hcs : s.current_strategy = some p) (hpmem : p ∈ winning_patterns)
    (hvalid : is_pattern_valid g p opponent = true) :
    get_strategic_move rcPat player opponent g s = (get_move_from_pattern g p, s) := by
  have hav : p ∈ get_available_patterns g opponent := by
    apply List.mem_filter.mpr
    refine ⟨hpmem, ?_⟩
    simpa [is_pattern_valid] using hvalid
  rcases hl : get_available_patterns g opponent with _ | ⟨q, qs⟩
  · rw [hl] at hav
    cases hav
  · unfold get_strategic_move
    rw [hl]
    cases hm : get_move_from_pattern g p <;> simp [hcs, hvalid, hm]

/-- With a committed pattern invalidated by the opponent while some pattern
is still available, `_get_strategic_move` replaces the commitment by a fresh
choice among the available patterns. -/
theorem get_strategic_move_of_invalid {rcPat : List Pattern → Option Pattern}
    {player opponent : Nat} {g : Grid} {s : AIState} {p : Pattern}
    (hcs : s.current_strategy = some p)
    (hinvalid : is_pattern_valid g p opponent = false)
    (hne : get_available_patterns g opponent ≠ [])
    (hrc : ∀ l : List Pattern, l ≠ [] → ∃ x ∈ l, rcPat l = some x) :
    ∃ q ∈ get_available_patterns g opponent,
      (get_strategic_move rcPat player opponent g s).2 = ⟨some q, 0⟩ := by
  rcases hl : get_available_patterns g opponent with _ | ⟨q0, qs⟩
  · exact absurd hl hne
  obtain ⟨q, hq, hcb⟩ := choose_best_pattern_mem rcPat g player (q0 :: qs) (by simp) hrc
  refine ⟨q, hq, ?_⟩
  unfold get_strategic_move
  rw [hl]
  cases hm : get_move_from_pattern g q <;> simp [hcs, hinvalid, hcb, hm]

/-- Every move produced by `_get_strategic_move` passes through
`_get_move_from_pattern`. -/
theorem get_strategic_move_fst (rcPat : List Pattern → Option Pattern)
    (player opponent : Nat) (g : Grid) (s : AIState) :
    (get_strategic_move rcPat player opponent g s).1 = none ∨
    ∃ p mv, get_move_from_pattern g p = some mv ∧
      (get_strategic_move rcPat player opponent g s).1 = some mv := by
  unfold get_strategic_move
  split
  · exact Or.inl rfl
  · dsimp only
    split
    · next p hp =>
      split
      · next mv hmv => exact Or.inr ⟨p, mv, hmv, rfl⟩
      · exact Or.inl rfl
    · exact Or.inl rfl

/-! ## C4: lifecycle of the committed pattern -/

/-- A board on which every winning pattern contains an opponent (player 2)
mark, no immediate block or win exists, and (1,2) is the only empty cell. -/
def gStuck : Grid := mkGrid 2 1 2 1 2 0 2 1 1

/-- C4 as stated is refuted by the code: on `gStuck` with committed pattern
row 0, the commitment is invalidated (row 0 contains opponent marks), no
block or win fires, yet `get_move` leaves the commitment in place: when every
pattern is opponent-blocked, `_get_strategic_move` returns before the
invalidation check, so the stale commitment is neither cleared nor replaced. -/
theorem commitment_not_cleared_when_all_blocked :
    is_pattern_valid gStuck (rowPattern 0) 2 = false ∧
    find_winning_move gStuck 2 = none ∧
    find_winning_move gStuck 1 = none ∧
    (strategy_get_move List.head? List.head? 1 gStuck
      ⟨some (rowPattern 0), 0⟩).2.current_strategy = some (rowPattern 0) := by decide

/-- C4, amended: across the strategic AI's turns the committed pattern
persists unchanged and is reused while it stays valid; it is cleared when a
block or win fires and on reset; on invalidation it is replaced by a freshly
chosen valid pattern when at least one pattern free of opponent marks
remains, but when no pattern is available the stale commitment stays stored
(and yields no move). After a reset the state is exactly the fresh one. -/
theorem commitment_lifecycle
    (rcPat : List Pattern → Option Pattern)
    (rcCell : List (Fin 3 × Fin 3) → Option (Fin 3 × Fin 3)) (player : Nat)
    (hrc : ∀ l : List Pattern, l ≠ [] → ∃ x ∈ l, rcPat l = some x) :
    (∀ g s m, find_winning_move g (opponent_of player) = some m →
      (strategy_get_move rcPat rcCell player g s).2.current_strategy = none) ∧
    (∀ g s m, find_winning_move g (opponent_of player) = none →
      find_winning_move g player = some m →
      (strategy_get_move rcPat rcCell player g s).2.current_strategy = none) ∧
    (∀ g s p, find_winning_move g (opponent_of player) = none →
      find_winning_move g player = none →
      s.current_strategy = some p → p ∈ winning_patterns →
      is_pattern_valid g p (opponent_of player) = true →
      (strategy_get_move rcPat rcCell player g s).2.current_strategy = some p ∧
      (∀ m, get_move_from_pattern g p = some m →
        (strategy_get_move rcPat rcCell player g s).1 = some m)) ∧
    (∀ g s p, find_winning_move g (opponent_of player) = none →
      find_winning_move g player = none →
      s.current_strategy = some p →
      is_pattern_valid g p (opponent_of player) = false →
      get_available_patterns g (opponent_of player) ≠ [] →
      ∃ q, (strategy_get_move rcPat rcCell player g s).2.current_strategy = some q ∧
        is_pattern_valid g q (opponent_of player) = true) ∧
    (∀ g s p, find_winning_move g (opponent_of player) = none →
      find_winning_move g player = none →
      s.current_strategy = some p →
      get_available_patterns g (opponent_of player) = [] →
      (strategy_get_move rcPat rcCell player g s).2 = s) ∧
    (∀ s : AIState, reset_strategy s = ⟨none, 0⟩) := by
  refine ⟨?_, ?_, ?_, ?_, ?_, fun _ => rfl⟩
  · intro g s m hb
    simp only [strategy_get_move]
    rw [hb]
  · intro g s m hb hw
    simp only [strategy_get_move]
    rw [hb, hw]
  · intro g s p hb hw hcs hpmem hvalid
    have hgsm := @get_strategic_move_of_valid rcPat player (opponent_of player) g s p
      hcs hpmem hvalid
    constructor
    · simp only [strategy_get_move]
      rw [hb, hw]
      cases hm : get_move_from_pattern g p <;>
        simp [hgsm, hm, hcs]
    · intro m hm
      simp only [strategy_get_move]
      rw [hb, hw]
      rw [hm] at hgsm
      simp [hgsm]
  · intro g s p hb hw hcs hinvalid hne
    obtain ⟨q, hq, hst⟩ :=
      @get_strategic_move_of_invalid rcPat player (opponent_of player) g s p
        hcs hinvalid hne hrc
    refine ⟨q, ?_, mem_available_valid hq⟩
    simp only [strategy_get_move]
    rw [hb, hw]
    rcases hgsm : get_strategic_move rcPat player (opponent_of player) g s with ⟨mv, s2⟩
    rw [hgsm] at hst
    cases mv <;> simp_all
  · intro g s p hb hw hcs hnone
    have hgsm := @get_strategic_move_of_no_available rcPat player (opponent_of player)
      g s hnone
    simp only [strategy_get_move]
    rw [hb, hw, hgsm]

/-- A quiet board: the AI (player 1) holds (0,0), nothing else is marked. -/
def gPersist : Grid := mkGrid 1 0 0 0 0 0 0 0 0

/-- Witness for the amended C4: on `gPersist` with valid committed pattern
row 0, the commitment persists through `get_move`. -/
theorem commitment_lifecycle_witness :
    (strategy_get_move List.head? List.head? 1 gPersist
      ⟨some (rowPattern 0), 0⟩).2.current_strategy = some (rowPattern 0) :=
  ((commitment_lifecycle List.head? List.head? 1 head?_oracle).2.2.1 gPersist
    ⟨some (rowPattern 0), 0⟩ (rowPattern 0) (by decide) (by decide) rfl
    (by decide) (by decide)).1

/-! ## Helper lemmas for the game loop -/

/-- Every cell is in the row-major enumeration. -/
theorem mem_allCells : ∀ c : Fin 3 × Fin 3, c ∈ allCells := by decide

/-- The row-major enumeration has no duplicates. -/
theorem allCells_nodup : allCells.Nodup := by decide

/-- A successful `make_move` on an empty cell writes exactly that cell. -/
theorem make_move_fin_empty {g : Grid} {c : Fin 3 × Fin 3} {v : Nat}
    (h : g c.1 c.2 = 0) :
    make_move g (c.1.val : Int) (c.2.val : Int) v = (true, setCell g c v) := by
  unfold make_move
  rw [dif_pos (inRange_natCast c)]
  rw [toFin_natCast c (inRange_natCast c)]
  rw [if_pos h]

/-- Flipping one list element out of a filter drops the filtered length by
exactly one (on a duplicate-free list). -/
theorem length_filter_update {α : Type} (p p' : α → Bool) (c : α)
    (hpc : p c = true) (hp'c : p' c = false) (hother : ∀ x, x ≠ c → p' x = p x) :
    ∀ l : List α, l.Nodup → c ∈ l →
      (l.filter p').length + 1 = (l.filter p).length := by
  intro l
  induction l with
  | nil => intro _ h; exact absurd h (List.not_mem_nil c)
  | cons y ys ih =>
    intro hnd hmem
    have hnd' := (List.nodup_cons.mp hnd).2
    rcases List.mem_cons.mp hmem with h | h
    · subst h
      have hcys : c ∉ ys := (List.nodup_cons.mp hnd).1
      have hfeq : ys.filter p' = ys.filter p :=
        List.filter_congr (fun x hx => hother x (fun hxc => hcys (hxc ▸ hx)))
      rw [List.filter_cons_of_pos hpc, List.filter_cons_of_neg (by simp [hp'c]), hfeq]
      simp
    · have hyc : y ≠ c := fun hyc => (List.nodup_cons.mp hnd).1 (hyc ▸ h)
      have hp'y : p' y = p y := hother y hyc
      cases hpy : p y
      · rw [List.filter_cons_of_neg (by simp [hp'y.trans hpy]),
            List.filter_cons_of_neg (by simp [hpy])]
        exact ih hnd' h
      · rw [List.filter_cons_of_pos (hp'y.trans hpy),
            List.filter_cons_of_pos hpy]
        have := ih hnd' h
        simp only [List.length_cons]
        omega

/-- Placing a nonzero mark on an empty cell reduces the number of empty
cells by exactly one. -/
theorem empties_after_move {g : Grid} {c : Fin 3 × Fin 3} {v : Nat}
    (hc : g c.1 c.2 = 0) (hv : v ≠ 0) :
    (get_empty_cells (setCell g c v)).length + 1 = (get_empty_cells g).length := by
  unfold get_empty_cells
  apply length_filter_update (fun x => g x.1 x.2 == 0)
    (fun x => setCell g c v x.1 x.2 == 0) c ?_ ?_ ?_ allCells allCells_nodup (mem_allCells c)
  · exact beq_iff_eq.mpr hc
  · show (setCell g c v c.1 c.2 == 0) = false
    have hset : setCell g c v c.1 c.2 = v := by
      unfold setCell
      simp
    rw [hset]
    exact beq_eq_false_iff_ne.mpr hv
  · intro x hx
    show (setCell g c v x.1 x.2 == 0) = (g x.1 x.2 == 0)
    have hset : setCell g c v x.1 x.2 = g x.1 x.2 := by
      unfold setCell
      rw [if_neg]
      rintro ⟨h1, h2⟩
      exact hx (Prod.ext h1 h2)
    rw [hset]

/-- A full board is reported over. -/
theorem game_over_of_full {g : Grid} (h : is_full g = true) :
    (is_game_over g).1 = true := by
  unfold is_game_over
  by_cases h1 : check_winner g 1 = true
  · rw [if_pos h1]
  · rw [if_neg h1]
    by_cases h2 : check_winner g 2 = true
    · rw [if_pos h2]
    · rw [if_neg h2, if_pos h]

/-- The winner reported by `is_game_over` is 1, 2, or absent. -/
theorem is_game_over_winner_cases (g : Grid) :
    (is_game_over g).2 = some 1 ∨ (is_game_over g).2 = some 2 ∨
      (is_game_over g).2 = none := by
  unfold is_game_over
  split
  · left; rfl
  · split
    · right; left; rfl
    · split
      · right; right; rfl
      · right; right; rfl

/-- Auxiliary: `List.findSome?` only succeeds on the image of a member. -/
theorem findSome?_mem {α β : Type} {f : α → Option β} {b : β} :
    ∀ {l : List α}, l.findSome? f = some b → ∃ a ∈ l, f a = some b := by
  intro l
  induction l with
  | nil => intro h; cases h
  | cons y ys ih =>
    intro h
    rw [List.findSome?_cons] at h
    cases hy : f y with
    | some v =>
      rw [hy] at h
      exact ⟨y, List.mem_cons_self y ys, by rw [hy]; exact h⟩
    | none =>
      rw [hy] at h
      obtain ⟨a, ha, hfa⟩ := ih h
      exact ⟨a, List.mem_cons_of_mem y ha, hfa⟩

/-- A cell produced by `_find_winning_move`'s per-pattern check is empty. -/
theorem fwmCandidate_empty {g : Grid} {player : Nat} {p : Pattern} {m : Fin 3 × Fin 3}
    (h : fwmCandidate g player p = some m) : g m.1 m.2 = 0 := by
  simp only [fwmCandidate] at h
  split at h
  · have hm := List.mem_of_mem_head? h
    have := (List.mem_filter.mp hm).2
    exact beq_iff_eq.mp this
  · cases h

/-- A blocking or winning cell found by `_find_winning_move` is empty. -/
theorem find_winning_move_empty {g : Grid} {player : Nat} {m : Fin 3 × Fin 3}
    (h : find_winning_move g player = some m) : g m.1 m.2 = 0 := by
  unfold find_winning_move at h
  obtain ⟨p, _, hc⟩ := findSome?_mem h
  exact fwmCandidate_empty hc

/-- Auxiliary: `RandomAI.get_move` on a board with an empty cell returns an empty cell,
for any conforming `random.choice` oracle. -/
theorem random_move_some {rcCell : List (Fin 3 × Fin 3) → Option (Fin 3 × Fin 3)}
    (hrc : ∀ l : List (Fin 3 × Fin 3), l ≠ [] → ∃ x ∈ l, rcCell l = some x)
    {g : Grid} (hne : get_empty_cells g ≠ []) :
    ∃ c, random_get_move rcCell g = some c ∧ g c.1 c.2 = 0 := by
  unfold random_get_move
  rcases hl : get_empty_cells g with _ | ⟨c, cs⟩
  · exact absurd hl hne
  · obtain ⟨x, hx, hsome⟩ := hrc (c :: cs) (by simp)
    exact ⟨x, hsome, mem_empty_cells (by rw [hl]; exact hx)⟩

/-- Auxiliary: `StrategyAI.get_move` on a board with an empty cell returns an empty
cell, for any conforming `random.choice` cell oracle. -/
theorem strategy_move_empty (rcPat : List Pattern → Option Pattern)
    (rcCell : List (Fin 3 × Fin 3) → Option (Fin 3 × Fin 3)) (player : Nat)
    (hcell : ∀ l : List (Fin 3 × Fin 3), l ≠ [] → ∃ x ∈ l, rcCell l = some x)
    (g : Grid) (s : AIState) (hne : get_empty_cells g ≠ []) :
    ∃ c s2, strategy_get_move rcPat rcCell player g s = (some c, s2) ∧
      g c.1 c.2 = 0 := by
  simp only [strategy_get_move]
  cases hb : find_winning_move g (opponent_of player) with
  | some m => exact ⟨m, _, rfl, find_winning_move_empty hb⟩
  | none =>
    cases hw : find_winning_move g player with
    | some m => exact ⟨m, _, rfl, find_winning_move_empty hw⟩
    | none =>
      rcases hgsm : get_strategic_move rcPat player (opponent_of player) g s with ⟨mv, s2⟩
      cases mv with
      | some m =>
        refine ⟨m, s2, rfl, ?_⟩
        rcases get_strategic_move_fst rcPat player (opponent_of player) g s with
          h | ⟨p, mv', hm, hfst⟩
        · rw [hgsm] at h
          cases h
        · rw [hgsm] at hfst
          have : mv' = m := by
            have := hfst.symm
            simpa using this
          rw [this] at hm
          exact get_move_from_pattern_empty hm
      | none =>
        obtain ⟨x, hx, hsome⟩ := hcell (get_empty_cells g) hne
        exact ⟨x, s2, by rw [hsome], mem_empty_cells hx⟩

/-- Both AI kinds return a move on an empty cell whenever one exists. -/
theorem ai_move_empty (k : AIKind) (rcPat : List Pattern → Option Pattern)
    (rcCell : List (Fin 3 × Fin 3) → Option (Fin 3 × Fin 3)) (player : Nat)
    (hcell : ∀ l : List (Fin 3 × Fin 3), l ≠ [] → ∃ x ∈ l, rcCell l = some x) :
    ∀ g s, get_empty_cells g ≠ [] →
      ∃ c s2, ai_get_move k rcPat rcCell player g s = (some c, s2) ∧
        g c.1 c.2 = 0 := by
  intro g s hne
  cases k with
  | random =>
    obtain ⟨c, hc, hce⟩ := random_move_some hcell hne
    exact ⟨c, s, by simp [ai_get_move, hc], hce⟩
  | strategy =>
    obtain ⟨c, s2, hc, hce⟩ := strategy_move_empty rcPat rcCell player hcell g s hne
    exact ⟨c, s2, by simp [ai_get_move, hc], hce⟩

/-- The game loop ends with a well-formed result whenever the fuel covers the
number of empty cells, the board is not yet over, and both movers play empty
cells. -/
theorem playLoop_total
    (mv1 mv2 : Grid → AIState → Option (Fin 3 × Fin 3) × AIState)
    (hm1 : ∀ g s, get_empty_cells g ≠ [] →
      ∃ c s2, mv1 g s = (some c, s2) ∧ g c.1 c.2 = 0)
    (hm2 : ∀ g s, get_empty_cells g ≠ [] →
      ∃ c s2, mv2 g s = (some c, s2) ∧ g c.1 c.2 = 0) :
    ∀ (fuel : Nat) (g : Grid) (cur : Nat) (s1 s2 : AIState),
      (is_game_over g).1 = false → (get_empty_cells g).length ≤ fuel →
      (cur = 1 ∨ cur = 2) →
      ∃ r, playLoop mv1 mv2 fuel g cur s1 s2 = some r ∧
        (r.is_draw = true ∨ r.winner = some 1 ∨ r.winner = some 2) := by
  intro fuel
  induction fuel with
  | zero =>
    intro g cur s1 s2 hover hle _
    exfalso
    have hfull : is_full g = true := by
      unfold is_full
      have : (get_empty_cells g).length = 0 := Nat.le_zero.mp hle
      simp [this]
    have hovertrue := game_over_of_full hfull
    rw [hover] at hovertrue
    cases hovertrue
  | succ fuel ih =>
    intro g cur s1 s2 hover hle hcur
    have hne : get_empty_cells g ≠ [] := by
      intro h
      have hfull : is_full g = true := by
        unfold is_full
        rw [h]
        rfl
      have hovertrue := game_over_of_full hfull
      rw [hover] at hovertrue
      cases hovertrue
    have hmov : ∃ c st, (if cur = 1 then mv1 g s1 else mv2 g s2) = (some c, st) ∧
        g c.1 c.2 = 0 := by
      by_cases h : cur = 1
      · rw [if_pos h]
        exact hm1 g s1 hne
      · rw [if_neg h]
        exact hm2 g s2 hne
    obtain ⟨c, st, hmv, hcell⟩ := hmov
    have hcur0 : cur ≠ 0 := by rcases hcur with h | h <;> omega
    have hmm : make_move g (c.1.val : Int) (c.2.val : Int) cur = (true, setCell g c cur) :=
      make_move_fin_empty hcell
    rw [playLoop, hmv]
    dsimp only
    rw [hmm]
    dsimp only
    rcases hgo : is_game_over (setCell g c cur) with ⟨b, w⟩
    cases b
    · dsimp only
      apply ih
      · rw [hgo]
      · have hdec := empties_after_move hcell hcur0
        omega
      · unfold switch_player
        by_cases h : cur = 1 <;> simp [h]
    · refine ⟨resultOf w, rfl, ?_⟩
      have hwc := is_game_over_winner_cases (setCell g c cur)
      rw [hgo] at hwc
      rcases hwc with h | h | h <;> simp at h <;> simp [resultOf, h]

/-- Auxiliary: `play_single_game` with fuel 9 (one move per cell) finishes with a
well-formed result when both movers always play an empty cell. -/
theorem play_single_game_some
    (mv1 mv2 : Grid → AIState → Option (Fin 3 × Fin 3) × AIState)
    (hm1 : ∀ g s, get_empty_cells g ≠ [] →
      ∃ c s2, mv1 g s = (some c, s2) ∧ g c.1 c.2 = 0)
    (hm2 : ∀ g s, get_empty_cells g ≠ [] →
      ∃ c s2, mv2 g s = (some c, s2) ∧ g c.1 c.2 = 0)
    (first_player : Nat) :
    ∃ r, play_single_game mv1 mv2 9 first_player = some r ∧
      (r.is_draw = true ∨ r.winner = some 1 ∨ r.winner = some 2) := by
  unfold play_single_game
  apply playLoop_total mv1 mv2 hm1 hm2 9 emptyGrid _ _ _
  · decide
  · decide
  · by_cases h : first_player = 1 <;> simp [h]

/-- Auxiliary: `record_result` on a well-formed result bumps the total and exactly one
bucket. -/
theorem record_result_counts (st : GameStats) (r : GameResult)
    (h : r.is_draw = true ∨ r.winner = some 1 ∨ r.winner = some 2) :
    (record_result st r).total_games = st.total_games + 1 ∧
    (record_result st r).player1_wins + (record_result st r).player2_wins +
      (record_result st r).draws =
      st.player1_wins + st.player2_wins + st.draws + 1 := by
  unfold record_result
  by_cases hd : r.is_draw = true
  · rw [if_pos hd]
    refine ⟨rfl, ?_⟩
    show st.player1_wins + st.player2_wins + (st.draws + 1) =
      st.player1_wins + st.player2_wins + st.draws + 1
    omega
  · rw [if_neg hd]
    rcases h with h | h | h
    · exact absurd h hd
    · rw [if_pos h]
      refine ⟨rfl, ?_⟩
      show st.player1_wins + 1 + st.player2_wins + st.draws =
        st.player1_wins + st.player2_wins + st.draws + 1
      omega
    · have h1 : ¬(r.winner = some 1) := by
        rw [h]
        simp
      rw [if_neg h1, if_pos h]
      refine ⟨rfl, ?_⟩
      show st.player1_wins + (st.player2_wins + 1) + st.draws =
        st.player1_wins + st.player2_wins + st.draws + 1
      omega

/-! ## C10: automated games terminate -/

/-- C10: with both players AI-driven (either kind) and a conforming
`random.choice` oracle, every AI-returned coordinate targets an empty cell,
so each loop iteration fills one cell and `play_single_game` with fuel 9
(the number of cells) ends with a `GameResult`. -/
theorem play_single_game_terminates (k1 k2 : AIKind)
    (rcPat : List Pattern → Option Pattern)
    (rcCell : List (Fin 3 × Fin 3) → Option (Fin 3 × Fin 3)) (first_player : Nat)
    (hcell : ∀ l : List (Fin 3 × Fin 3), l ≠ [] → ∃ x ∈ l, rcCell l = some x) :
    (∀ g s, get_empty_cells g ≠ [] →
      ∃ c s2, ai_get_move k1 rcPat rcCell 1 g s = (some c, s2) ∧ g c.1 c.2 = 0) ∧
    (∀ g s, get_empty_cells g ≠ [] →
      ∃ c s2, ai_get_move k2 rcPat rcCell 2 g s = (some c, s2) ∧ g c.1 c.2 = 0) ∧
    ∃ r, play_single_game (ai_get_move k1 rcPat rcCell 1)
      (ai_get_move k2 rcPat rcCell 2) 9 first_player = some r := by
  have hm1 := ai_move_empty k1 rcPat rcCell 1 hcell
  have hm2 := ai_move_empty k2 rcPat rcCell 2 hcell
  refine ⟨hm1, hm2, ?_⟩
  obtain ⟨r, hr, _⟩ := play_single_game_some _ _ hm1 hm2 first_player
  exact ⟨r, hr⟩

/-- Witness for C10: a strategy-vs-strategy game with the head-of-list
oracle terminates. -/
theorem play_single_game_terminates_witness :
    ∃ r, play_single_game (ai_get_move .strategy List.head? List.head? 1)
      (ai_get_move .strategy List.head? List.head? 2) 9 1 = some r :=
  (play_single_game_terminates .strategy .strategy List.head? List.head? 1
    head?_oracle).2.2

/-! ## C5: simulation statistics add up -/

/-- C5: `simulate_games` first resets the aggregate statistics (the result is
independent of the incoming `stats`), plays `n` games, and returns statistics
with `total_games = n` and `player1_wins + player2_wins + draws = n` — for
any AI pairing and conforming oracle. -/
theorem simulate_games_counts (k1 k2 : AIKind)
    (rcPat : List Pattern → Option Pattern)
    (rcCell : List (Fin 3 × Fin 3) → Option (Fin 3 × Fin 3))
    (n first_player : Nat) (stats : GameStats)
    (hcell : ∀ l : List (Fin 3 × Fin 3), l ≠ [] → ∃ x ∈ l, rcCell l = some x) :
    ∃ st, simulate_games (ai_get_move k1 rcPat rcCell 1) (ai_get_move k2 rcPat rcCell 2)
        9 n first_player stats = some st ∧
      st.total_games = n ∧
      st.player1_wins + st.player2_wins + st.draws = n := by
  have hm1 := ai_move_empty k1 rcPat rcCell 1 hcell
  have hm2 := ai_move_empty k2 rcPat rcCell 2 hcell
  have hloop : ∀ (m : Nat) (acc : GameStats),
      ∃ st, simulateLoop (ai_get_move k1 rcPat rcCell 1) (ai_get_move k2 rcPat rcCell 2)
          9 first_player m acc = some st ∧
        st.total_games = acc.total_games + m ∧
        st.player1_wins + st.player2_wins + st.draws =
          acc.player1_wins + acc.player2_wins + acc.draws + m := by
    intro m
    induction m with
    | zero => exact fun acc => ⟨acc, rfl, by omega, by omega⟩
    | succ m ih =>
      intro acc
      obtain ⟨r, hr, hwf⟩ := play_single_game_some _ _ hm1 hm2 first_player
      obtain ⟨st, hst, h1, h2⟩ := ih (record_result acc r)
      obtain ⟨hc1, hc2⟩ := record_result_counts acc r hwf
      refine ⟨st, ?_, by omega, by omega⟩
      rw [simulateLoop, hr]
      exact hst
  obtain ⟨st, hst, h1, h2⟩ := hloop n (stats_reset stats)
  refine ⟨st, hst, ?_, ?_⟩
  · simpa [stats_reset] using h1
  · simpa [stats_reset] using h2

/-- Witness for C5: three random-vs-strategy games from dirty incoming
statistics still produce totals that add up to 3. -/
theorem simulate_games_counts_witness :
    ∃ st, simulate_games (ai_get_move .random List.head? List.head? 1)
        (ai_get_move .strategy List.head? List.head? 2) 9 3 1 ⟨7, 7, 7, 7⟩ = some st ∧
      st.total_games = 3 ∧
      st.player1_wins + st.player2_wins + st.draws = 3 :=
  simulate_games_counts .random .strategy List.head? List.head? 3 1 ⟨7, 7, 7, 7⟩
    head?_oracle

end TicTacToe
